import Mathlib

/-!
Verification of the document-processing pipeline of the Document-ai backend.

The embedding works over explicit character lists (`Str`), so that the
splitting, stripping and length arithmetic of the Python source
(`backend/app/workers/document_processor.py`, `backend/app/workers.py`,
`backend/app/nlp.py`, `backend/app/services/task_extractor.py`,
`backend/app/services/pdf_processor.py`, `backend/app/routes.py`) is
mirrored operation by operation.  Helper scanners that are not structurally
recursive carry an explicit fuel argument (always called with
`length + 1`, which is sufficient because every step consumes at least one
character), so that all definitions reduce inside the kernel.
-/

/-- Characters of a Python string. -/
abbrev Str := List Char

/-- Character list of a Lean string literal. -/
def strOf (s : String) : Str := s.data

/-- Fueled scanner for Python `str.split(sep)` with a non-empty separator:
scans left to right, cutting at each non-overlapping occurrence of `sep`. -/
def splitOnSepGo (sep : Str) : Nat → Str → Str → List Str
  | 0, acc, s => [acc.reverse ++ s]
  | _ + 1, acc, [] => [acc.reverse]
  | fuel + 1, acc, c :: rest =>
    if sep.isPrefixOf (c :: rest) then
      acc.reverse :: splitOnSepGo sep fuel [] (List.drop (sep.length - 1) rest)
    else
      splitOnSepGo sep fuel (c :: acc) rest

/-- Python `s.split(sep)` for a non-empty separator. -/
def splitOnSep (sep s : Str) : List Str := splitOnSepGo sep (s.length + 1) [] s

/-- Fueled scanner for Python `str.split()` (no argument): splits on runs of
whitespace and never returns empty words. -/
def splitWsGo : Nat → Str → List Str
  | 0, _ => []
  | _ + 1, [] => []
  | fuel + 1, c :: cs =>
    if c.isWhitespace then splitWsGo fuel cs
    else ((c :: cs).takeWhile fun d => !d.isWhitespace) ::
         splitWsGo fuel ((c :: cs).dropWhile fun d => !d.isWhitespace)

/-- Python `s.split()`: whitespace-run splitting without empty words. -/
def splitWs (s : Str) : List Str := splitWsGo (s.length + 1) s

/-- Characters treated as sentence punctuation by the worker's
`re.split(r'[.!?]+', text)`. -/
def isPunctSep (c : Char) : Bool := c = '.' || c = '!' || c = '?'

/-- Fueled scanner for `re.split(r'[.!?]+', text)`: each maximal non-empty
run of `.`, `!`, `?` is one separator. -/
def splitPunctGo : Nat → Str → Str → List Str
  | 0, acc, s => [acc.reverse ++ s]
  | _ + 1, acc, [] => [acc.reverse]
  | fuel + 1, acc, c :: rest =>
    if isPunctSep c then
      acc.reverse :: splitPunctGo fuel [] (rest.dropWhile isPunctSep)
    else
      splitPunctGo fuel (c :: acc) rest

/-- Embedding of `re.split(r'[.!?]+', text)` from
`extract_tasks_from_chunk`. -/
def splitPunctRuns (s : Str) : List Str := splitPunctGo (s.length + 1) [] s

/-- Python `s.strip()`: remove leading and trailing whitespace. -/
def stripChars (s : Str) : Str :=
  ((s.dropWhile Char.isWhitespace).reverse.dropWhile Char.isWhitespace).reverse

/-- Python `s.lower()`. -/
def toLowerStr (s : Str) : Str := s.map Char.toLower

/-- Fueled scanner for the substring test: check a prefix match at every
suffix of the haystack. -/
def containsSubGo (needle : Str) : Nat → Str → Bool
  | 0, _ => false
  | fuel + 1, h =>
    if needle.isPrefixOf h then true
    else
      match h with
      | [] => false
      | _ :: t => containsSubGo needle fuel t

/-- Python `needle in hay` substring test. -/
def containsSub (hay needle : Str) : Bool := containsSubGo needle (hay.length + 1) hay

/-- Python `any(word in hay for word in needles)`. -/
def containsAny (hay : Str) (needles : List Str) : Bool :=
  needles.any fun n => containsSub hay n

/-- Dropping a while-prefix never lengthens a list. -/
theorem length_dropWhile_le (p : Char → Bool) (s : Str) :
    (s.dropWhile p).length ≤ s.length :=
  (List.dropWhile_sublist (p := p) (l := s)).length_le

/-- Stripping never lengthens a string. -/
theorem stripChars_length_le (s : Str) : (stripChars s).length ≤ s.length := by
  unfold stripChars
  calc ((s.dropWhile Char.isWhitespace).reverse.dropWhile Char.isWhitespace).reverse.length
      = ((s.dropWhile Char.isWhitespace).reverse.dropWhile Char.isWhitespace).length := by
        rw [List.length_reverse]
    _ ≤ (s.dropWhile Char.isWhitespace).reverse.length := length_dropWhile_le _ _
    _ = (s.dropWhile Char.isWhitespace).length := by rw [List.length_reverse]
    _ ≤ s.length := length_dropWhile_le _ _

/-- A chunk row as created by `chunk_document` in
`backend/app/workers/document_processor.py`: owning document, sequence
number, full text, 200-character excerpt and (always defaulted) page
number. -/
structure ChunkRec where
  doc_id : Nat
  chunk_no : Nat
  text : Str
  text_excerpt : Str
  page_no : Nat
deriving DecidableEq

/-- Chunk construction as in the source: the excerpt is the first 200
characters of the chunk text and the page number defaults to 1. -/
def mkChunk (docId n : Nat) (t : Str) : ChunkRec :=
  ⟨docId, n, t, t.take 200, 1⟩

/-- The `'. '` separator used by the sentence splitting of
`chunk_document`. -/
def dotSpaceSep : Str := '.' :: ' ' :: []

/-- The `'\n\n'` separator used by the paragraph splitting of both
chunkers. -/
def paraSep : Str := '\n' :: '\n' :: []

/-- Sentence-accumulation loop of `chunk_document` for a paragraph longer
than 1000 characters: flush the buffer as a chunk when adding the next
sentence would exceed 1000 characters, otherwise append it with a `'. '`
joiner.  Returns the produced chunks, the next chunk number and the
leftover buffer. -/
def sentenceChunks (docId : Nat) : List Str → Nat → Str → List ChunkRec × Nat × Str
  | [], n, current => ([], n, current)
  | s :: rest, n, current =>
    if current ≠ [] ∧ current.length + s.length > 1000 then
      let r := sentenceChunks docId rest (n + 1) s
      (mkChunk docId n (stripChars current) :: r.1, r.2)
    else
      sentenceChunks docId rest n (if current = [] then s else current ++ dotSpaceSep ++ s)

/-- Paragraph loop of `chunk_document`: skip blank paragraphs, emit a
paragraph of at most 1000 characters as one chunk, and sentence-split
longer paragraphs (flushing a final non-blank leftover buffer). -/
def paragraphChunks (docId : Nat) : List Str → Nat → List ChunkRec
  | [], _ => []
  | q :: rest, n =>
    let p := stripChars q
    if p = [] then paragraphChunks docId rest n
    else if p.length > 1000 then
      let r := sentenceChunks docId (splitOnSep dotSpaceSep p) n []
      let tail := stripChars r.2.2
      if tail ≠ [] then
        r.1 ++ mkChunk docId r.2.1 tail :: paragraphChunks docId rest (r.2.1 + 1)
      else
        r.1 ++ paragraphChunks docId rest r.2.1
    else
      mkChunk docId n p :: paragraphChunks docId rest (n + 1)

/-- Embedding of `chunk_document` (document_processor.py lines 286-343):
split on blank-line paragraphs, chunk numbering starts at 1. -/
def chunk_document (text : Str) (docId : Nat) : List ChunkRec :=
  paragraphChunks docId (splitOnSep paraSep text) 1

/-- Python `"\n\n".join(parts)` as used by `_chunk_text_simple`. -/
def joinParas : List Str → Str
  | [] => []
  | [p] => p
  | p :: q :: rest => p ++ '\n' :: '\n' :: joinParas (q :: rest)

/-- Paragraph-accumulation loop of `_chunk_text_simple`
(backend/app/workers.py lines 150-169), carrying the running `size`
accounting of the source (which over-counts the first paragraph of a fresh
buffer by 2). -/
def simpleChunksGo (maxChars : Nat) : List Str → List Str → Nat → List Str
  | [], current, _ => if current ≠ [] then [joinParas current] else []
  | q :: rest, current, size =>
    let p := stripChars q
    if p = [] then simpleChunksGo maxChars rest current size
    else if current ≠ [] ∧ size + p.length + 1 > maxChars then
      joinParas current :: simpleChunksGo maxChars rest [p] p.length
    else
      simpleChunksGo maxChars rest (current ++ [p]) (size + p.length + 2)

/-- Embedding of `_chunk_text_simple` (workers.py): paragraph accumulation
into chunks of budget `maxChars` (default 1200), joined with blank
lines. -/
def chunk_text_simple (text : Str) (maxChars : Nat := 1200) : List Str :=
  if text = [] then [] else simpleChunksGo maxChars (splitOnSep paraSep text) [] 0

/-- The three members of the `TaskPriority` enum in
`backend/app/models.py`. -/
inductive TaskPriority
  | low
  | medium
  | high
deriving DecidableEq

/-- Python `TaskPriority(value)`: returns the member for one of the three
enum values and raises `ValueError` (modelled as `none`) otherwise. -/
def taskPriorityOfStr (s : Str) : Option TaskPriority :=
  if s = strOf "low" then some TaskPriority.low
  else if s = strOf "medium" then some TaskPriority.medium
  else if s = strOf "high" then some TaskPriority.high
  else none

/-- High-priority cue words of `_determine_priority` in
`backend/app/nlp.py`. -/
def nlpHighWords : List Str :=
  [strOf "urgent", strOf "critical", strOf "immediate", strOf "asap",
   strOf "emergency", strOf "must"]

/-- Low-priority cue words of `_determine_priority` in
`backend/app/nlp.py`. -/
def nlpLowWords : List Str :=
  [strOf "optional", strOf "nice to have", strOf "later",
   strOf "low priority", strOf "when possible"]

/-- Embedding of `_determine_priority` (nlp.py lines 250-258). -/
def determinePriority (taskText : Str) : Str :=
  let l := toLowerStr taskText
  if containsAny l nlpHighWords then strOf "high"
  else if containsAny l nlpLowWords then strOf "low"
  else strOf "medium"

/-- A task dictionary as produced by the ai/fallback extraction in
`backend/app/nlp.py`: keys `text`, `priority`, `status`. -/
structure AiTaskData where
  text : Str
  priority : Str
  status : Str
deriving DecidableEq

/-- The `task_patterns` keyword list of `extract_tasks` in
`backend/app/nlp.py`. -/
def nlpTaskPatterns : List Str :=
  [strOf "need to", strOf "must", strOf "should", strOf "required to",
   strOf "task is", strOf "action item", strOf "todo", strOf "implement",
   strOf "create", strOf "build", strOf "develop", strOf "install",
   strOf "configure", strOf "setup", strOf "update", strOf "fix",
   strOf "resolve", strOf "check", strOf "verify", strOf "test",
   strOf "review", strOf "approve", strOf "submit", strOf "send"]

/-- Embedding of the rule-based `extract_tasks` (nlp.py lines 396-426):
split on `'. '`, keep non-blank sentences containing a task pattern, and
tag each with its `_determine_priority` value and status `open`. -/
def extract_tasks (text : Str) : List AiTaskData :=
  (splitOnSep dotSpaceSep text).filterMap fun s0 =>
    let s := stripChars s0
    if s = [] then none
    else if containsAny (toLowerStr s) nlpTaskPatterns then
      some ⟨s, determinePriority s, strOf "open"⟩
    else none

/-- A task row as persisted by `process_document`
(document_processor.py).  Chunk ids are modelled by the chunk number of
the source chunk. -/
structure TaskRec where
  doc_id : Nat
  source_chunk_id : Option Nat
  task_text : Str
  priority : TaskPriority
  status : Str
  extracted_by : Str
deriving DecidableEq

/-- High-priority keywords of `extract_tasks_from_chunk`
(document_processor.py lines 394-397). -/
def workerHighKws : List Str :=
  [strOf "urgent", strOf "critical", strOf "immediate", strOf "asap",
   strOf "emergency", strOf "must", strOf "required"]

/-- Medium-priority keywords of `extract_tasks_from_chunk`
(document_processor.py lines 398-401). -/
def workerMedKws : List Str :=
  [strOf "should", strOf "need to", strOf "implement", strOf "create",
   strOf "check", strOf "review", strOf "contact", strOf "evacuate",
   strOf "inspect"]

/-- Low-priority keywords of `extract_tasks_from_chunk`
(document_processor.py lines 402-405). -/
def workerLowKws : List Str :=
  [strOf "optional", strOf "nice to have", strOf "later",
   strOf "when possible"]

/-- Embedding of `extract_tasks_from_chunk` (document_processor.py lines
367-428): split on punctuation runs, keep sentences of at least 10
characters whose lowercase form contains an actionable keyword, strip a
trailing comma, and persist the sentence as a rule-based task when its
length lies in [15, 200]. -/
def extract_tasks_from_chunk (text : Str) (docId chunkId : Nat) : List TaskRec :=
  (splitPunctRuns text).filterMap fun s0 =>
    let s := stripChars s0
    if s = [] ∨ s.length < 10 then none
    else
      let low := toLowerStr s
      let prio : Option TaskPriority :=
        if containsAny low workerHighKws then some TaskPriority.high
        else if containsAny low workerMedKws then some TaskPriority.medium
        else if containsAny low workerLowKws then some TaskPriority.low
        else none
      match prio with
      | none => none
      | some p =>
        let c1 := stripChars s
        let c2 := if c1.getLast? = some ',' then c1.dropLast else c1
        if 15 ≤ c2.length ∧ c2.length ≤ 200 then
          some ⟨docId, some chunkId, c2, p, strOf "open", strOf "rule-based"⟩
        else none

/-- Step 4 of `process_document` (document_processor.py lines 218-241):
turn each ai task dictionary into a task row, skipping a dictionary whose
priority value is not a valid `TaskPriority` (the `except` around the
constructor). -/
def mkAiTask (docId : Nat) (d : AiTaskData) : Option TaskRec :=
  (taskPriorityOfStr d.priority).map fun p =>
    ⟨docId, none, d.text, p, strOf "open", strOf "ai-powered"⟩

/-- Steps 4-5 of `process_document`: persist the ai-extracted tasks, and
the rule-based tasks only when no ai task row was created. -/
def combineTasks (docId : Nat) (aiData : List AiTaskData)
    (ruleTasks : List TaskRec) : List TaskRec :=
  let aiTasks := aiData.filterMap (mkAiTask docId)
  if aiTasks.length = 0 then ruleTasks else aiTasks

/-- Fueled whitespace-run collapse used by the dedup normalisation
(`re.sub(r'\s+', ' ', s)`). -/
def collapseWsGo : Nat → Str → Str
  | 0, s => s
  | _ + 1, [] => []
  | fuel + 1, c :: rest =>
    if c.isWhitespace then ' ' :: collapseWsGo fuel (rest.dropWhile Char.isWhitespace)
    else c :: collapseWsGo fuel rest

/-- Python `re.sub(r'\s+', ' ', s)`. -/
def collapseWs (s : Str) : Str := collapseWsGo (s.length + 1) s

/-- Python `\w` (ASCII fragment): letters, digits and underscore. -/
def isWordChar (c : Char) : Bool := c.isAlphanum || c = '_'

/-- Normalisation of `_deduplicate_tasks`
(task_extractor.py lines 351-365): lowercase, remove characters outside
`[\w\s]`, strip, collapse whitespace runs. -/
def normalizeTaskText (s : Str) : Str :=
  collapseWs (stripChars ((toLowerStr s).filter fun c => isWordChar c || c.isWhitespace))

/-- `joinParas` of a one-element list is that element. -/
theorem joinParas_single (p : Str) : joinParas [p] = p := rfl

/-- Appending one more paragraph to a non-empty buffer adds the blank-line
joiner. -/
theorem joinParas_append (xs : List Str) (p : Str) (h : xs ≠ []) :
    joinParas (xs ++ [p]) = joinParas xs ++ '\n' :: '\n' :: p := by
  induction xs with
  | nil => exact absurd rfl h
  | cons a xs ih =>
    cases xs with
    | nil => simp [joinParas]
    | cons b ys =>
      have h2 : b :: ys ≠ [] := List.cons_ne_nil _ _
      calc joinParas ((a :: b :: ys) ++ [p])
          = a ++ '\n' :: '\n' :: joinParas ((b :: ys) ++ [p]) := rfl
        _ = a ++ '\n' :: '\n' :: (joinParas (b :: ys) ++ '\n' :: '\n' :: p) := by
            rw [ih h2]
        _ = (a ++ '\n' :: '\n' :: joinParas (b :: ys)) ++ '\n' :: '\n' :: p := by
            simp
        _ = joinParas (a :: b :: ys) ++ '\n' :: '\n' :: p := rfl

/-- Invariant of the `_chunk_text_simple` loop: the tracked `size` never
under-counts the joined buffer, and the buffer is a single stripped
paragraph or fits in `maxChars + 1` characters; hence every emitted chunk
fits in `maxChars + 1` characters or is a single stripped paragraph of the
input. -/
theorem simpleChunksGo_spec (maxChars : Nat) (pars0 : List Str) :
    ∀ pars current size,
      (∀ q ∈ pars, q ∈ pars0) →
      ((current = [] ∧ size = 0) ∨
        ((joinParas current).length ≤ size ∧
          ((∃ q ∈ pars0, current = [stripChars q]) ∨
            (joinParas current).length ≤ maxChars + 1))) →
      ∀ c ∈ simpleChunksGo maxChars pars current size,
        c.length ≤ maxChars + 1 ∨ ∃ q ∈ pars0, c = stripChars q := by
  intro pars
  induction pars with
  | nil =>
    intro current size _ hinv c hc
    by_cases hcur : current = []
    · simp [simpleChunksGo, hcur] at hc
    · simp [simpleChunksGo, hcur] at hc
      subst hc
      rcases hinv with ⟨h1, _⟩ | ⟨_, hsingle | hbound⟩
      · exact absurd h1 hcur
      · rcases hsingle with ⟨q, hq, hcq⟩
        exact Or.inr ⟨q, hq, by rw [hcq, joinParas_single]⟩
      · exact Or.inl hbound
  | cons q rest ih =>
    intro current size hsub hinv c hc
    have hq : q ∈ pars0 := hsub q (by simp)
    have hrest : ∀ x ∈ rest, x ∈ pars0 := fun x hx => hsub x (by simp [hx])
    simp only [simpleChunksGo] at hc
    by_cases hp : stripChars q = []
    · rw [if_pos hp] at hc
      exact ih current size hrest hinv c hc
    · rw [if_neg hp] at hc
      by_cases hg : current ≠ [] ∧ size + (stripChars q).length + 1 > maxChars
      · rw [if_pos hg] at hc
        rcases List.mem_cons.mp hc with hc1 | hc2
        · subst hc1
          rcases hinv with ⟨h1, _⟩ | ⟨_, hsingle | hbound⟩
          · exact absurd h1 hg.1
          · rcases hsingle with ⟨q2, hq2, hcq⟩
            exact Or.inr ⟨q2, hq2, by rw [hcq, joinParas_single]⟩
          · exact Or.inl hbound
        · refine ih [stripChars q] (stripChars q).length hrest ?_ c hc2
          exact Or.inr ⟨by rw [joinParas_single], Or.inl ⟨q, hq, rfl⟩⟩
      · rw [if_neg hg] at hc
        refine ih (current ++ [stripChars q]) (size + (stripChars q).length + 2)
          hrest ?_ c hc
        by_cases hcur : current = []
        · subst hcur
          refine Or.inr ⟨?_, Or.inl ⟨q, hq, rfl⟩⟩
          simp [joinParas_single]
          omega
        · have hle : size + (stripChars q).length + 1 ≤ maxChars := by
            rcases Decidable.not_and_iff_or_not.mp hg with h | h
            · exact absurd hcur (by simpa using h)
            · omega
          rcases hinv with ⟨h1, _⟩ | ⟨hsz, _⟩
          · exact absurd h1 hcur
          · refine Or.inr ⟨?_, Or.inr ?_⟩
            · rw [joinParas_append current (stripChars q) hcur]
              simp
              omega
            · rw [joinParas_append current (stripChars q) hcur]
              simp
              omega

/-- Every chunk of `_chunk_text_simple` fits in `maxChars + 1` characters
or is one single (stripped) paragraph of the input text. -/
theorem chunk_text_simple_budget (text : Str) (maxChars : Nat) :
    ∀ c ∈ chunk_text_simple text maxChars,
      c.length ≤ maxChars + 1 ∨ ∃ q ∈ splitOnSep paraSep text, c = stripChars q := by
  intro c hc
  unfold chunk_text_simple at hc
  by_cases h : text = []
  · simp [h] at hc
  · rw [if_neg h] at hc
    exact simpleChunksGo_spec maxChars (splitOnSep paraSep text)
      (splitOnSep paraSep text) [] 0 (fun _ hx => hx) (Or.inl ⟨rfl, rfl⟩) c hc

/-- Invariant of the sentence-accumulation loop of `chunk_document`: the
running buffer is empty, at most 1002 characters (1000 budget plus the
2-character `'. '` joiner), or a single sentence from the split; hence
every flushed chunk is at most 1002 characters or the strip of a single
sentence, and the leftover buffer keeps the invariant. -/
theorem sentenceChunks_spec (docId : Nat) (sents0 : List Str) :
    ∀ sents n current,
      (∀ s ∈ sents, s ∈ sents0) →
      (current = [] ∨ current.length ≤ 1002 ∨ current ∈ sents0) →
      (∀ c ∈ (sentenceChunks docId sents n current).1,
          c.text.length ≤ 1002 ∨ ∃ s ∈ sents0, c.text = stripChars s)
      ∧ ((sentenceChunks docId sents n current).2.2 = []
          ∨ (sentenceChunks docId sents n current).2.2.length ≤ 1002
          ∨ (sentenceChunks docId sents n current).2.2 ∈ sents0) := by
  intro sents
  induction sents with
  | nil =>
    intro n current _ hinv
    exact ⟨fun c hc => by simp [sentenceChunks] at hc, by simpa [sentenceChunks] using hinv⟩
  | cons s rest ih =>
    intro n current hsub hinv
    have hs : s ∈ sents0 := hsub s (by simp)
    have hrest : ∀ x ∈ rest, x ∈ sents0 := fun x hx => hsub x (by simp [hx])
    by_cases hg : current ≠ [] ∧ current.length + s.length > 1000
    · have ihr := ih (n + 1) s hrest (Or.inr (Or.inr hs))
      simp only [sentenceChunks, if_pos hg]
      refine ⟨fun c hc => ?_, ihr.2⟩
      rcases List.mem_cons.mp hc with hc1 | hc2
      · subst hc1
        rcases hinv with h1 | hlen | hmem
        · exact absurd h1 hg.1
        · exact Or.inl (le_trans (stripChars_length_le current) hlen)
        · exact Or.inr ⟨current, hmem, rfl⟩
      · exact ihr.1 c hc2
    · have hinv2 : (if current = [] then s
          else current ++ dotSpaceSep ++ s) = [] ∨
          (if current = [] then s else current ++ dotSpaceSep ++ s).length ≤ 1002 ∨
          (if current = [] then s else current ++ dotSpaceSep ++ s) ∈ sents0 := by
        by_cases hcur : current = []
        · simp [hcur, hs]
        · have hle : current.length + s.length ≤ 1000 := by
            rcases Decidable.not_and_iff_or_not.mp hg with h | h
            · exact absurd hcur (by simpa using h)
            · omega
          refine Or.inr (Or.inl ?_)
          simp [hcur, dotSpaceSep]
          omega
      have ihr := ih n (if current = [] then s else current ++ dotSpaceSep ++ s) hrest hinv2
      simpa only [sentenceChunks, if_neg hg] using ihr

/-- Every chunk emitted by the paragraph loop of `chunk_document` is at
most 1002 characters long or is the strip of one single sentence of one
of the given paragraphs. -/
theorem paragraphChunks_spec (docId : Nat) (pars0 : List Str) :
    ∀ pars n,
      (∀ q ∈ pars, q ∈ pars0) →
      ∀ c ∈ paragraphChunks docId pars n,
        c.text.length ≤ 1002 ∨
          ∃ q ∈ pars0, ∃ s ∈ splitOnSep dotSpaceSep (stripChars q),
            c.text = stripChars s := by
  intro pars
  induction pars with
  | nil => intro n _ c hc; simp [paragraphChunks] at hc
  | cons q rest ih =>
    intro n hsub c hc
    have hq : q ∈ pars0 := hsub q (by simp)
    have hrest : ∀ x ∈ rest, x ∈ pars0 := fun x hx => hsub x (by simp [hx])
    simp only [paragraphChunks] at hc
    by_cases hp : stripChars q = []
    · rw [if_pos hp] at hc
      exact ih n hrest c hc
    · rw [if_neg hp] at hc
      by_cases hlong : (stripChars q).length > 1000
      · rw [if_pos hlong] at hc
        have hsent := sentenceChunks_spec docId (splitOnSep dotSpaceSep (stripChars q))
          (splitOnSep dotSpaceSep (stripChars q)) n [] (fun _ hx => hx) (Or.inl rfl)
        by_cases htail :
            stripChars (sentenceChunks docId (splitOnSep dotSpaceSep (stripChars q)) n []).2.2 ≠ []
        · rw [if_pos htail] at hc
          rcases List.mem_append.mp hc with hc1 | hc2
          · rcases hsent.1 c hc1 with hb | ⟨s, hsmem, heq⟩
            · exact Or.inl hb
            · exact Or.inr ⟨q, hq, s, hsmem, heq⟩
          · rcases List.mem_cons.mp hc2 with hc3 | hc4
            · subst hc3
              rcases hsent.2 with h0 | hlen | hmem
              · rw [h0] at htail
                exact absurd rfl htail
              · exact Or.inl (le_trans (stripChars_length_le _) hlen)
              · exact Or.inr ⟨q, hq, _, hmem, rfl⟩
            · exact ih _ hrest c hc4
        · rw [if_neg htail] at hc
          rcases List.mem_append.mp hc with hc1 | hc2
          · rcases hsent.1 c hc1 with hb | ⟨s, hsmem, heq⟩
            · exact Or.inl hb
            · exact Or.inr ⟨q, hq, s, hsmem, heq⟩
          · exact ih _ hrest c hc2
      · rw [if_neg hlong] at hc
        rcases List.mem_cons.mp hc with hc1 | hc2
        · subst hc1
          exact Or.inl (by simp [mkChunk]; omega)
        · exact ih _ hrest c hc2

/-- Every chunk of `chunk_document` is at most 1002 characters long
(budget 1000 plus the 2-character `'. '` joiner) or is the strip of one
single sentence of one paragraph of the input. -/
theorem chunk_document_budget (text : Str) (docId : Nat) :
    ∀ c ∈ chunk_document text docId,
      c.text.length ≤ 1002 ∨
        ∃ q ∈ splitOnSep paraSep text, ∃ s ∈ splitOnSep dotSpaceSep (stripChars q),
          c.text = stripChars s :=
  fun c hc => paragraphChunks_spec docId (splitOnSep paraSep text)
    (splitOnSep paraSep text) 1 (fun _ hx => hx) c hc

/-- The sentence split of a paragraph used by `chunk_document`. -/
def sentencesOfPar (q : Str) : List Str := splitOnSep dotSpaceSep (stripChars q)

/-- Claim C6 as stated by the spec: every chunk of either chunker stays
within its configured character budget (1000 for `chunk_document`, 1200
for `_chunk_text_simple`) unless the chunk is one single sentence. -/
def ClaimC6 : Prop :=
  ∀ text docId,
    (∀ c ∈ chunk_document text docId,
        c.text.length ≤ 1000 ∨
          ∃ q ∈ splitOnSep paraSep text, ∃ s ∈ sentencesOfPar q,
            c.text = stripChars s)
    ∧ (∀ c ∈ chunk_text_simple text 1200,
        c.length ≤ 1200 ∨
          ∃ q ∈ splitOnSep paraSep text, ∃ s ∈ sentencesOfPar q,
            c = stripChars s)

/-- A 1210-character single paragraph made of two sentences. -/
def cex6 : Str := List.replicate 600 'a' ++ '.' :: ' ' :: List.replicate 608 'b'

set_option maxRecDepth 100000 in
set_option maxHeartbeats 1000000 in
/-- C6 fails as stated: `_chunk_text_simple` emits the whole 1210-character
two-sentence paragraph `cex6` as one chunk, which exceeds the 1200
budget and is not a single sentence. -/
theorem c6_counterexample : ¬ ClaimC6 := by
  intro h
  exact absurd (h cex6 1).2 (by decide)

/-- C6 (amended): every chunk of the paragraph-based chunker
`chunk_document` is at most 1002 characters (its 1000-character budget
plus the 2-character `'. '` joiner) or is the strip of a single sentence
that alone exceeds the budget; every chunk of `_chunk_text_simple` is at
most 1201 characters (its 1200-character budget plus one) or is a single
stripped paragraph — for the paragraph accumulator the atomic unit is a
paragraph, not a sentence. -/
theorem c6_chunk_budget (text : Str) (docId : Nat) :
    (∀ c ∈ chunk_document text docId,
        c.text.length ≤ 1002 ∨
          ∃ q ∈ splitOnSep paraSep text, ∃ s ∈ sentencesOfPar q,
            c.text = stripChars s)
    ∧ (∀ c ∈ chunk_text_simple text 1200,
        c.length ≤ 1201 ∨ ∃ q ∈ splitOnSep paraSep text, c = stripChars q) :=
  ⟨fun c hc => chunk_document_budget text docId c hc,
   fun c hc => chunk_text_simple_budget text 1200 c hc⟩

/-- C6 witness: the amended bound evaluated on a concrete two-paragraph
text and its first chunk. -/
theorem c6_witness :
    mkChunk 7 1 (strOf "Hello world") ∈ chunk_document (strOf "Hello world\n\npara two") 7
    ∧ ((mkChunk 7 1 (strOf "Hello world")).text.length ≤ 1002 ∨
        ∃ q ∈ splitOnSep paraSep (strOf "Hello world\n\npara two"),
          ∃ s ∈ sentencesOfPar q,
            (mkChunk 7 1 (strOf "Hello world")).text = stripChars s) :=
  ⟨by decide,
   (c6_chunk_budget (strOf "Hello world\n\npara two") 7).1
     (mkChunk 7 1 (strOf "Hello world")) (by decide)⟩

/-- Python `"\n".join(parts)`. -/
def joinNl : List Str → Str
  | [] => []
  | [p] => p
  | p :: q :: rest => p ++ '\n' :: joinNl (q :: rest)

/-- The text assembled from the per-page results of one PDF library:
`"\n".join([t for t in extracted if t])` in the source loops. -/
def joinPages (pages : List Str) : Str := joinNl (pages.filter fun t => t ≠ [])

/-- Per-page output of one PDF library on one file.  `none` models the
library raising while opening or reading the file; inside a successful
read, a page whose extraction raised is already the empty string, as in
the source loops. -/
def pagesText (lib : Option (List Str)) : Str :=
  match lib with
  | some pages => joinPages pages
  | none => []

/-- Embedding of the PDF branch of `process_document`
(document_processor.py lines 44-72): try PyPDF2 first and keep its text if
it has a non-whitespace character, otherwise fall back to pdfplumber. -/
def workerPdfText (pypdf2 plumber : Option (List Str)) : Str :=
  let t1 := pagesText pypdf2
  if stripChars t1 ≠ [] then t1 else pagesText plumber

/-- The priority-order extraction described by the spec: return the joined
text of the first listed method that yields any non-whitespace text on
any page. -/
def priorityPdfText (first second : Option (List Str)) : Str :=
  let t1 := pagesText first
  if stripChars t1 ≠ [] then t1 else pagesText second

/-- Result record of `PDFProcessorService.extract_text_from_pdf`
(pdf_processor.py): page texts, the method that produced them and the
success flag. -/
structure PdfExtractResult where
  pages : List Str
  extraction_method : Str
  success : Bool
deriving DecidableEq

/-- The PyPDF2-then-OCR tail of `extract_text_from_pdf`: keep the PyPDF2
pages when some page has non-whitespace text; the OCR fallback is a
documented no-op, so everything else fails. -/
def servicePdfPyStep (pypdf2 : Option (List Str)) : PdfExtractResult :=
  match pypdf2 with
  | some pages =>
    if pages.any (fun t => stripChars t ≠ []) then ⟨pages, strOf "pypdf2", true⟩
    else ⟨[], strOf "ocr", false⟩
  | none => ⟨[], strOf "ocr", false⟩

/-- Embedding of `PDFProcessorService.extract_text_from_pdf`
(pdf_processor.py lines 20-71): pdfplumber first, then PyPDF2, then the
unimplemented OCR fallback. -/
def servicePdfExtract (plumber pypdf2 : Option (List Str)) : PdfExtractResult :=
  match plumber with
  | some pages =>
    if pages.any (fun t => stripChars t ≠ []) then ⟨pages, strOf "pdfplumber", true⟩
    else servicePdfPyStep pypdf2
  | none => servicePdfPyStep pypdf2

/-- Claim C5 as stated: every PDF text extraction (in particular the one
inside the worker pipeline) tries pdfplumber first and PyPDF2 second,
keeping the first result with non-whitespace text. -/
def ClaimC5 : Prop :=
  ∀ pypdf2 plumber : Option (List Str),
    workerPdfText pypdf2 plumber = priorityPdfText plumber pypdf2

/-- C5 fails as stated: on a PDF where PyPDF2 reads the page as `a` and
pdfplumber reads it as `b`, the worker pipeline returns the PyPDF2 text,
not the pdfplumber text demanded by the claimed order. -/
theorem c5_counterexample : ¬ ClaimC5 := by
  intro h
  exact absurd (h (some [strOf "a"]) (some [strOf "b"])) (by decide)

/-- C5 (amended): `PDFProcessorService.extract_text_from_pdf` does try
pdfplumber first and PyPDF2 second, but the extraction inside the worker
pipeline (`process_document`) tries PyPDF2 first and pdfplumber only when
PyPDF2 yields no non-whitespace text. -/
theorem c5_pdf_order (pypdf2 plumber : Option (List Str)) :
    workerPdfText pypdf2 plumber = priorityPdfText pypdf2 plumber
    ∧ (∀ pages, plumber = some pages → pages.any (fun t => stripChars t ≠ []) →
        servicePdfExtract plumber pypdf2 = ⟨pages, strOf "pdfplumber", true⟩)
    ∧ ((plumber = none ∨ ∀ pages, plumber = some pages →
          pages.all (fun t => stripChars t = [])) →
        servicePdfExtract plumber pypdf2 = servicePdfPyStep pypdf2) := by
  refine ⟨rfl, ?_, ?_⟩
  · intro pages hp hany
    subst hp
    have hred : servicePdfExtract (some pages) pypdf2 =
        if pages.any (fun t => stripChars t ≠ []) then
          ⟨pages, strOf "pdfplumber", true⟩
        else servicePdfPyStep pypdf2 := rfl
    rw [hred, if_pos hany]
  · intro hnone
    cases plumber with
    | none => rfl
    | some pages =>
      rcases hnone with h | h
      · exact absurd h (by simp)
      · have hall := h pages rfl
        have hallp : ∀ t ∈ pages, stripChars t = [] := by
          intro t ht
          simpa using List.all_eq_true.mp hall t ht
        have hany : pages.any (fun t => stripChars t ≠ []) = false := by
          apply List.any_eq_false.mpr
          intro t ht
          simp [hallp t ht]
        have hred : servicePdfExtract (some pages) pypdf2 =
            if pages.any (fun t => stripChars t ≠ []) then
              ⟨pages, strOf "pdfplumber", true⟩
            else servicePdfPyStep pypdf2 := rfl
        rw [hred, hany]
        simp

/-- C5 witness: the amended ordering evaluated on a concrete PDF where
both libraries yield text. -/
theorem c5_witness :
    workerPdfText (some [strOf "a"]) (some [strOf "b"])
        = priorityPdfText (some [strOf "a"]) (some [strOf "b"])
    ∧ servicePdfExtract (some [strOf "b"]) (some [strOf "a"])
        = ⟨[strOf "b"], strOf "pdfplumber", true⟩ :=
  ⟨(c5_pdf_order (some [strOf "a"]) (some [strOf "b"])).1,
   (c5_pdf_order (some [strOf "a"]) (some [strOf "b"])).2.1 [strOf "b"] rfl (by decide)⟩

/-- Deterministic in-process model of the CPython string hash used by
`_generate_simple_embeddings` (`hash(word)`); the properties proved below
do not depend on its values, only on it being a fixed function. -/
def pyHash (w : Str) : Nat := w.foldl (fun a c => a * 1000003 + c.toNat) 7

/-- One `embedding[hash_val] += 1.0` update of the bucket histogram. -/
def bump (e : List Nat) (i : Nat) : List Nat := e.set i (e.getD i 0 + 1)

/-- The word list of `_generate_simple_embeddings`:
`text.lower().split()`. -/
def wordsOf (text : Str) : List Str := splitWs (toLowerStr text)

/-- The un-normalised 384-bucket histogram of
`_generate_simple_embeddings` (nlp.py lines 275-295): one increment per
word among the first 384 words, at the hash bucket of the word. -/
def bucketCounts (text : Str) : List Nat :=
  ((wordsOf text).take 384).foldl (fun e w => bump e (pyHash w % 384))
    (List.replicate 384 0)

/-- Squared Euclidean norm of a natural histogram. -/
def normSqNat (l : List Nat) : Nat := (List.map (fun x => x * x) l).sum

/-- Embedding of `_generate_simple_embeddings` (nlp.py lines 275-295) with
floats modelled as real numbers: the bucket histogram, divided by its
Euclidean norm when that norm is positive. -/
noncomputable def generate_simple_embeddings (text : Str) : List ℝ :=
  if normSqNat (bucketCounts text) = 0 then
    List.map (fun x : Nat => (x : ℝ)) (bucketCounts text)
  else
    List.map (fun x : Nat => (x : ℝ) / Real.sqrt (normSqNat (bucketCounts text)))
      (bucketCounts text)

/-- Squared Euclidean norm of a real vector. -/
def sumSqReal (l : List ℝ) : ℝ := (List.map (fun x => x * x) l).sum

/-- The bump fold preserves the histogram length. -/
theorem foldl_bump_length (ws : List Str) :
    ∀ e : List Nat, (ws.foldl (fun e w => bump e (pyHash w % 384)) e).length = e.length := by
  induction ws with
  | nil => intro e; rfl
  | cons w ws ih =>
    intro e
    rw [List.foldl_cons, ih]
    simp [bump]

/-- The histogram always has exactly 384 buckets. -/
theorem bucketCounts_length (text : Str) : (bucketCounts text).length = 384 := by
  unfold bucketCounts
  rw [foldl_bump_length, List.length_replicate]

/-- A bump inside the histogram raises the total count by one. -/
theorem bump_sum (e : List Nat) : ∀ i, i < e.length → (bump e i).sum = e.sum + 1 := by
  induction e with
  | nil => intro i hi; simp at hi
  | cons x xs ih =>
    intro i hi
    cases i with
    | zero =>
      show ((x :: xs).set 0 ((x :: xs).getD 0 0 + 1)).sum = (x :: xs).sum + 1
      simp only [List.getD_cons_zero, List.set_cons_zero, List.sum_cons]
      omega
    | succ j =>
      have hj : j < xs.length := by simpa using hi
      have ihj := ih j hj
      show ((x :: xs).set (j + 1) ((x :: xs).getD (j + 1) 0 + 1)).sum = (x :: xs).sum + 1
      rw [List.getD_cons_succ, List.set_cons_succ]
      simp only [List.sum_cons]
      unfold bump at ihj
      omega

/-- The bump fold adds one to the total count per word, as long as the
histogram keeps 384 buckets. -/
theorem foldl_bump_sum (ws : List Str) :
    ∀ e : List Nat, e.length = 384 →
      (ws.foldl (fun e w => bump e (pyHash w % 384)) e).sum = e.sum + ws.length := by
  induction ws with
  | nil => intro e _; simp
  | cons w ws ih =>
    intro e he
    rw [List.foldl_cons]
    have hlen : (bump e (pyHash w % 384)).length = 384 := by simp [bump, he]
    rw [ih _ hlen, bump_sum e _ (by rw [he]; exact Nat.mod_lt _ (by norm_num)),
      List.length_cons]
    omega

/-- The histogram total equals the number of counted words. -/
theorem bucketCounts_sum (text : Str) :
    (bucketCounts text).sum = ((wordsOf text).take 384).length := by
  unfold bucketCounts
  rw [foldl_bump_sum _ _ (List.length_replicate 384 0), List.sum_replicate]
  simp

/-- A natural list with a positive total has a positive squared norm. -/
theorem normSqNat_pos (l : List Nat) (h : 0 < l.sum) : 0 < normSqNat l := by
  induction l with
  | nil => simp at h
  | cons x xs ih =>
    by_cases hx : 0 < x
    · have : 0 < x * x := Nat.mul_pos hx hx
      simp only [normSqNat, List.map_cons, List.sum_cons]
      omega
    · have hx0 : x = 0 := by omega
      subst hx0
      simp only [List.sum_cons, Nat.zero_add] at h
      have := ih h
      simp only [normSqNat, List.map_cons, List.sum_cons] at this ⊢
      omega

/-- A text with at least one word has a histogram with positive squared
norm. -/
theorem normSqNat_bucketCounts_pos (text : Str) (h : wordsOf text ≠ []) :
    0 < normSqNat (bucketCounts text) := by
  apply normSqNat_pos
  rw [bucketCounts_sum]
  have : (wordsOf text).take 384 ≠ [] := by
    cases hw : wordsOf text with
    | nil => exact absurd hw h
    | cons a l => simp
  have := List.length_pos.mpr this
  omega

/-- C7: the fallback embedding `_generate_simple_embeddings` is
deterministic — two calls on identical text give identical vectors — and
its output always has length exactly 384. -/
theorem c7_embedding_deterministic (t1 t2 : Str) (h : t1 = t2) :
    generate_simple_embeddings t1 = generate_simple_embeddings t2
    ∧ (generate_simple_embeddings t1).length = 384 := by
  subst h
  refine ⟨rfl, ?_⟩
  unfold generate_simple_embeddings
  by_cases hS : normSqNat (bucketCounts t1) = 0
  · rw [if_pos hS, List.length_map, bucketCounts_length]
  · rw [if_neg hS, List.length_map, bucketCounts_length]

/-- C7 witness: the theorem applied to a concrete text given twice. -/
theorem c7_witness :
    generate_simple_embeddings (strOf "alpha beta") = generate_simple_embeddings (strOf "alpha beta")
    ∧ (generate_simple_embeddings (strOf "alpha beta")).length = 384 :=
  c7_embedding_deterministic (strOf "alpha beta") (strOf "alpha beta") rfl

/-- C10: the fallback embedding returns the all-zero 384-vector when the
text has no whitespace-separated words; otherwise its output has squared
Euclidean norm 1; and the output depends only on the first 384 words of
the text. -/
theorem c10_embedding_norm (text : Str) :
    (wordsOf text = [] → generate_simple_embeddings text = List.replicate 384 (0 : ℝ))
    ∧ (wordsOf text ≠ [] → sumSqReal (generate_simple_embeddings text) = 1)
    ∧ ∀ t2, (wordsOf text).take 384 = (wordsOf t2).take 384 →
        generate_simple_embeddings text = generate_simple_embeddings t2 := by
  refine ⟨?_, ?_, ?_⟩
  · intro hw
    have hc : bucketCounts text = List.replicate 384 0 := by
      unfold bucketCounts
      rw [hw, List.take_nil, List.foldl_nil]
    have hS : normSqNat (bucketCounts text) = 0 := by
      rw [hc]
      unfold normSqNat
      rw [List.map_replicate, List.sum_replicate]
      simp
    unfold generate_simple_embeddings
    rw [if_pos hS, hc, List.map_replicate]
    norm_num
  · intro hw
    have hSpos := normSqNat_bucketCounts_pos text hw
    have hS0 : normSqNat (bucketCounts text) ≠ 0 := hSpos.ne'
    have hSR0 : ((normSqNat (bucketCounts text) : Nat) : ℝ) ≠ 0 :=
      Nat.cast_ne_zero.mpr hS0
    have hsqrt : Real.sqrt (normSqNat (bucketCounts text)) *
        Real.sqrt (normSqNat (bucketCounts text)) =
        ((normSqNat (bucketCounts text) : Nat) : ℝ) :=
      Real.mul_self_sqrt (Nat.cast_nonneg _)
    unfold generate_simple_embeddings
    rw [if_neg hS0]
    unfold sumSqReal
    rw [List.map_map]
    have hfun : ((fun x : ℝ => x * x) ∘
        fun x : Nat => (x : ℝ) / Real.sqrt (normSqNat (bucketCounts text)))
        = fun x : Nat =>
            ((x : ℝ) * (x : ℝ)) * (((normSqNat (bucketCounts text) : Nat) : ℝ))⁻¹ := by
      funext x
      show ((x : ℝ) / Real.sqrt (normSqNat (bucketCounts text))) *
          ((x : ℝ) / Real.sqrt (normSqNat (bucketCounts text))) = _
      rw [div_mul_div_comm, hsqrt, div_eq_mul_inv]
    rw [hfun, List.sum_map_mul_right]
    have hsum : (List.map (fun x : Nat => ((x : ℝ) * (x : ℝ))) (bucketCounts text)).sum
        = ((normSqNat (bucketCounts text) : Nat) : ℝ) := by
      unfold normSqNat
      rw [Nat.cast_list_sum, List.map_map]
      refine congrArg List.sum (List.map_congr_left ?_)
      intro x _
      show (x : ℝ) * (x : ℝ) = ((x * x : Nat) : ℝ)
      push_cast
      ring
    rw [hsum, mul_inv_cancel₀ hSR0]
  · intro t2 h
    have hc : bucketCounts text = bucketCounts t2 := by
      unfold bucketCounts
      rw [h]
    unfold generate_simple_embeddings
    rw [hc]

/-- C10 witness: the zero-vector case on whitespace-only input and the
unit-norm case on a two-word input, via the theorem at those inputs. -/
theorem c10_witness :
    (wordsOf (strOf " ") = [] ∧
      generate_simple_embeddings (strOf " ") = List.replicate 384 (0 : ℝ))
    ∧ (wordsOf (strOf "hello world") ≠ [] ∧
      sumSqReal (generate_simple_embeddings (strOf "hello world")) = 1) :=
  ⟨⟨by decide, (c10_embedding_norm (strOf " ")).1 (by decide)⟩,
   ⟨by decide, (c10_embedding_norm (strOf "hello world")).2.1 (by decide)⟩⟩

/-- Fueled scanner for Python `hay.find(needle)`: index of the first
occurrence, `none` for the -1 case. -/
def findSubGo (needle : Str) : Nat → Nat → Str → Option Nat
  | 0, _, _ => none
  | fuel + 1, i, h =>
    if needle.isPrefixOf h then some i
    else
      match h with
      | [] => none
      | _ :: t => findSubGo needle fuel (i + 1) t

/-- Python `hay.find(needle)` with `none` for not-found. -/
def findSub (hay needle : Str) : Option Nat := findSubGo needle (hay.length + 1) 0 hay

/-- The two sections recognised by `_parse_ai_response`. -/
inductive AiSection
  | summarySec
  | tasksSec
deriving DecidableEq

/-- Loop state of `_parse_ai_response` (nlp.py lines 180-248). -/
structure ParseState where
  sect : Option AiSection
  summary : Str
  tasks : List AiTaskData
  currentTask : Str
deriving DecidableEq

/-- Summary-header cue words of `_parse_ai_response`. -/
def summaryHeaderWords : List Str :=
  [strOf "summary:", strOf "summary", strOf "1.", strOf "overview:"]

/-- Tasks-header cue words of `_parse_ai_response`. -/
def tasksHeaderWords : List Str :=
  [strOf "tasks:", strOf "task", strOf "2.", strOf "action items:", strOf "actions:"]

/-- The numbered bullet markers `1.` to `19.` checked by
`_parse_ai_response`. -/
def bulletNumberMarks : List Str :=
  [strOf "1.", strOf "2.", strOf "3.", strOf "4.", strOf "5.", strOf "6.",
   strOf "7.", strOf "8.", strOf "9.", strOf "10.", strOf "11.", strOf "12.",
   strOf "13.", strOf "14.", strOf "15.", strOf "16.", strOf "17.",
   strOf "18.", strOf "19."]

/-- Bullet detection of `_parse_ai_response`: a dash, bullet or star
start, or a numbered marker. -/
def isBulletLine (line : Str) : Bool :=
  (strOf "-").isPrefixOf line || (strOf "•").isPrefixOf line ||
  (strOf "*").isPrefixOf line ||
  bulletNumberMarks.any fun m => m.isPrefixOf line

/-- The character set of `line.lstrip('-•*0123456789. ')`. -/
def bulletStripSet : Str := strOf "-•*0123456789. "

/-- Task dictionary flushed by `_parse_ai_response`: stripped text,
priority from `_determine_priority` on the unstripped buffer, status
`open`. -/
def mkParsedTask (cur : Str) : AiTaskData :=
  ⟨stripChars cur, determinePriority cur, strOf "open"⟩

/-- One line of the `_parse_ai_response` loop. -/
def parseLineStep (st : ParseState) (line0 : Str) : ParseState :=
  let line := stripChars line0
  if line = [] then st
  else if containsAny (toLowerStr line) summaryHeaderWords then
    let st1 := { st with sect := some AiSection.summarySec }
    match findSub (toLowerStr line) (strOf "summary") with
    | some idx =>
      let remaining :=
        stripChars ((stripChars (line.drop (idx + 7))).dropWhile fun c => c = ':')
      if remaining ≠ [] then { st1 with summary := remaining } else st1
    | none => st1
  else if containsAny (toLowerStr line) tasksHeaderWords then
    { st with sect := some AiSection.tasksSec }
  else
    match st.sect with
    | some AiSection.summarySec =>
      if st.summary ≠ [] then { st with summary := st.summary ++ ' ' :: line }
      else { st with summary := line }
    | some AiSection.tasksSec =>
      if isBulletLine line then
        { st with
          tasks :=
            if st.currentTask ≠ [] then st.tasks ++ [mkParsedTask st.currentTask]
            else st.tasks,
          currentTask := stripChars (line.dropWhile fun c => bulletStripSet.contains c) }
      else if st.currentTask ≠ [] then
        { st with currentTask := st.currentTask ++ ' ' :: line }
      else st
    | none => st

/-- Embedding of `_parse_ai_response` (nlp.py lines 180-248): returns the
summary and the parsed task dictionaries. -/
def parseAiResponse (content : Str) : Str × List AiTaskData :=
  let st := (splitOnSep ('\n' :: []) content).foldl parseLineStep ⟨none, [], [], []⟩
  (if st.summary ≠ [] then stripChars st.summary else strOf "No summary generated",
   if st.currentTask ≠ [] then st.tasks ++ [mkParsedTask st.currentTask] else st.tasks)

/-- `_determine_priority` only ever returns `high`, `low` or `medium`. -/
theorem determinePriority_valid (s : Str) :
    determinePriority s = strOf "high" ∨ determinePriority s = strOf "low"
    ∨ determinePriority s = strOf "medium" := by
  unfold determinePriority
  by_cases h1 : containsAny (toLowerStr s) nlpHighWords
  · simp [h1]
  · by_cases h2 : containsAny (toLowerStr s) nlpLowWords <;> simp [h1, h2]

/-- A line step leaves the task list unchanged or flushes the current
buffer onto it. -/
theorem parseLineStep_tasks_eq (st : ParseState) (line : Str) :
    (parseLineStep st line).tasks = st.tasks ∨
      (parseLineStep st line).tasks = st.tasks ++ [mkParsedTask st.currentTask] := by
  unfold parseLineStep
  dsimp only
  repeat' split
  all_goals simp

/-- A line step only adds tasks that come from a flushed buffer. -/
theorem parseLineStep_tasks (st : ParseState) (line : Str) :
    ∀ d ∈ (parseLineStep st line).tasks, d ∈ st.tasks ∨ ∃ cur, d = mkParsedTask cur := by
  intro d hd
  rcases parseLineStep_tasks_eq st line with h | h
  · rw [h] at hd
    exact Or.inl hd
  · rw [h] at hd
    rcases List.mem_append.mp hd with h2 | h2
    · exact Or.inl h2
    · simp only [List.mem_singleton] at h2
      exact Or.inr ⟨_, h2⟩

/-- The whole parse loop only accumulates flushed-buffer tasks. -/
theorem parseFold_tasks (lines : List Str) :
    ∀ st, ∀ d ∈ (lines.foldl parseLineStep st).tasks,
      d ∈ st.tasks ∨ ∃ cur, d = mkParsedTask cur := by
  induction lines with
  | nil => intro st d hd; exact Or.inl hd
  | cons l ls ih =>
    intro st d hd
    rw [List.foldl_cons] at hd
    rcases ih (parseLineStep st l) d hd with h | h
    · exact parseLineStep_tasks st l d h
    · exact Or.inr h

/-- Every task parsed out of a model response has a valid priority
string. -/
theorem parseAiResponse_priority_valid (content : Str) :
    ∀ d ∈ (parseAiResponse content).2,
      d.priority = strOf "high" ∨ d.priority = strOf "low"
      ∨ d.priority = strOf "medium" := by
  intro d hd
  unfold parseAiResponse at hd
  dsimp only at hd
  split at hd
  case isTrue =>
    rcases List.mem_append.mp hd with h | h
    · rcases parseFold_tasks _ _ d h with h2 | ⟨cur, h2⟩
      · simp at h2
      · subst h2; exact determinePriority_valid cur
    · simp only [List.mem_singleton] at h
      subst h
      exact determinePriority_valid _
  case isFalse =>
    rcases parseFold_tasks _ _ d hd with h2 | ⟨cur, h2⟩
    · simp at h2
    · subst h2; exact determinePriority_valid cur

/-- Every task of the rule-based `extract_tasks` fallback has a valid
priority string. -/
theorem extract_tasks_priority_valid (text : Str) :
    ∀ d ∈ extract_tasks text,
      d.priority = strOf "high" ∨ d.priority = strOf "low"
      ∨ d.priority = strOf "medium" := by
  intro d hd
  unfold extract_tasks at hd
  rw [List.mem_filterMap] at hd
  rcases hd with ⟨s0, _, hs⟩
  dsimp only at hs
  split at hs
  · exact absurd hs (by simp)
  · split at hs
    · simp only [Option.some_inj] at hs
      subst hs
      exact determinePriority_valid _
    · exact absurd hs (by simp)

/-- With valid priority strings, every ai task dictionary survives the
task-row constructor: the persisted texts are exactly the ai texts and
every row is tagged `ai-powered`. -/
theorem filterMap_mkAiTask (docId : Nat) (aiData : List AiTaskData)
    (hv : ∀ d ∈ aiData, d.priority = strOf "high" ∨ d.priority = strOf "low"
      ∨ d.priority = strOf "medium") :
    (aiData.filterMap (mkAiTask docId)).map TaskRec.task_text
        = aiData.map AiTaskData.text
    ∧ ∀ t ∈ aiData.filterMap (mkAiTask docId), t.extracted_by = strOf "ai-powered" := by
  induction aiData with
  | nil => exact ⟨rfl, fun t ht => absurd ht (by simp)⟩
  | cons d ds ih =>
    have hd := hv d (by simp)
    have hds : ∀ x ∈ ds, x.priority = strOf "high" ∨ x.priority = strOf "low"
        ∨ x.priority = strOf "medium" := fun x hx => hv x (by simp [hx])
    obtain ⟨p, hp⟩ : ∃ p, taskPriorityOfStr d.priority = some p := by
      rcases hd with h | h | h <;> rw [h] <;> exact ⟨_, rfl⟩
    have hmk : mkAiTask docId d
        = some ⟨docId, none, d.text, p, strOf "open", strOf "ai-powered"⟩ := by
      unfold mkAiTask
      rw [hp]
      rfl
    obtain ⟨ih1, ih2⟩ := ih hds
    constructor
    · rw [List.filterMap_cons, hmk]
      simp only [List.map_cons]
      rw [ih1]
    · intro t ht
      rw [List.filterMap_cons, hmk] at ht
      rcases List.mem_cons.mp ht with h | h
      · subst h; rfl
      · exact ih2 t h

/-- C3: in one processing run, when the ai extraction yields a non-empty
task list (its priorities are always one of `high`, `low`, `medium`, as
the last two conjuncts show for both ai output producers), exactly the
ai tasks are persisted, all tagged `ai-powered`; the rule-based list is
persisted only when the ai list is empty, and the two lists are never
merged. -/
theorem c3_ai_task_preference (docId : Nat) (aiData : List AiTaskData)
    (ruleTasks : List TaskRec)
    (hv : ∀ d ∈ aiData, d.priority = strOf "high" ∨ d.priority = strOf "low"
      ∨ d.priority = strOf "medium") :
    (aiData = [] → combineTasks docId aiData ruleTasks = ruleTasks)
    ∧ (aiData ≠ [] →
        (combineTasks docId aiData ruleTasks).map TaskRec.task_text
            = aiData.map AiTaskData.text
        ∧ ∀ t ∈ combineTasks docId aiData ruleTasks,
            t.extracted_by = strOf "ai-powered")
    ∧ (∀ text, ∀ d ∈ extract_tasks text, d.priority = strOf "high"
        ∨ d.priority = strOf "low" ∨ d.priority = strOf "medium")
    ∧ (∀ content, ∀ d ∈ (parseAiResponse content).2, d.priority = strOf "high"
        ∨ d.priority = strOf "low" ∨ d.priority = strOf "medium") := by
  obtain ⟨hmap, hby⟩ := filterMap_mkAiTask docId aiData hv
  refine ⟨?_, ?_, extract_tasks_priority_valid, parseAiResponse_priority_valid⟩
  · intro h
    subst h
    rfl
  · intro hne
    have hlen : (aiData.filterMap (mkAiTask docId)).length = aiData.length := by
      have := congrArg List.length hmap
      simpa using this
    have hnz : ¬ (aiData.filterMap (mkAiTask docId)).length = 0 := by
      rw [hlen]
      exact fun h => hne (List.length_eq_zero.mp h)
    have hcomb : combineTasks docId aiData ruleTasks
        = aiData.filterMap (mkAiTask docId) := by
      unfold combineTasks
      dsimp only
      rw [if_neg hnz]
    rw [hcomb]
    exact ⟨hmap, hby⟩

/-- C3 witness: a non-empty ai task list wins over a non-empty rule-based
list on concrete inputs. -/
theorem c3_witness :
    extract_tasks (strOf "We must go") ≠ []
    ∧ (combineTasks 5 (extract_tasks (strOf "We must go"))
        [⟨5, some 1, strOf "some rule task", TaskPriority.low, strOf "open",
          strOf "rule-based"⟩]).map TaskRec.task_text
        = (extract_tasks (strOf "We must go")).map AiTaskData.text :=
  ⟨by decide,
   ((c3_ai_task_preference 5 (extract_tasks (strOf "We must go"))
      [⟨5, some 1, strOf "some rule task", TaskPriority.low, strOf "open",
        strOf "rule-based"⟩] (by decide)).2.1 (by decide)).1⟩

/-- The ai-fallback text whose two sentences are identical up to the
trailing period. -/
def cex4 : Str := strOf "We must go. We must go."

/-- The chunk text whose two sentences are identical. -/
def cex4rule : Str := strOf "You must review the budget now! You must review the budget now!"

/-- C4 fails on the code: the persisting path of `process_document`
deduplicates nothing.  On `cex4` the ai-fallback extractor yields two
tasks with the same normalised text and both are persisted; on `cex4rule`
the rule-based chunk extractor likewise persists two tasks with the same
normalised text.  (`_deduplicate_tasks` exists in `TaskExtractorService`
but is never called in the worker pipeline.) -/
theorem c4_duplicate_tasks :
    ((combineTasks 1 (extract_tasks cex4) []).map fun t => normalizeTaskText t.task_text)
        = [strOf "we must go", strOf "we must go"]
    ∧ ¬ ((combineTasks 1 (extract_tasks cex4) []).map
          fun t => normalizeTaskText t.task_text).Nodup
    ∧ ((extract_tasks_from_chunk cex4rule 1 1).map fun t => normalizeTaskText t.task_text)
        = [strOf "you must review the budget now", strOf "you must review the budget now"]
    ∧ ¬ ((extract_tasks_from_chunk cex4rule 1 1).map
          fun t => normalizeTaskText t.task_text).Nodup := by decide

/-- The single document of the store, as the pipeline sees it: text
content, status, processed flags and the chunk and task rows owned by the
document.  (Summaries and the vector index are outside the claims being
checked.) -/
structure StoreState where
  docId : Nat
  content : Str
  status : Str
  is_processed : Bool
  processed_at : Option Nat
  chunks : List ChunkRec
  tasks : List TaskRec
deriving DecidableEq

/-- End-state embedding of `process_document` (document_processor.py lines
15-284) for a content-backed document.  `ai` is the outcome of the
ai stage: `some data` when `generate_ai_summary_and_tasks` returned that
task list, `none` when the stage raised or timed out (then the task data
defaults to `[]`).  The status write to `processing` committed at entry is
overwritten by the final status; there is no check of the prior status.
Chunk and task rows are appended to whatever rows the store already
holds — nothing is deleted.  Empty (or whitespace-only) text moves the
document to `failed` and touches nothing else, in particular not
`processed_at`. -/
def process_document (ai : Option (List AiTaskData)) (now : Nat)
    (st : StoreState) : StoreState :=
  if stripChars st.content = [] then
    { st with status := strOf "failed" }
  else
    let newChunks := chunk_document st.content st.docId
    let ruleTasks := newChunks.foldl
      (fun acc c => acc ++ extract_tasks_from_chunk c.text st.docId c.chunk_no) []
    let allTasks := combineTasks st.docId (ai.getD []) ruleTasks
    { st with
      status := strOf "processed",
      is_processed := true,
      processed_at := some now,
      chunks := st.chunks ++ newChunks,
      tasks := st.tasks ++ allTasks }

/-- The reset performed by the `reprocess` route (routes.py lines
614-618): status back to `uploaded`, flags cleared, `processed_at`
cleared. -/
def reprocessReset (st : StoreState) : StoreState :=
  { st with status := strOf "uploaded", is_processed := false, processed_at := none }

/-- Dispatch part of `create_document` (routes.py lines 66-86): queue,
else background task, else inline; a failed enqueue falls back to inline
execution.  The boolean of the result records whether processing was
executed or scheduled. -/
def create_documentR (useQueue enqueueOk hasBg : Bool)
    (ai : Option (List AiTaskData)) (now : Nat) (st : StoreState) :
    StoreState × Bool :=
  if useQueue then
    if enqueueOk then (st, true) else (process_document ai now st, true)
  else if hasBg then (st, true)
  else (process_document ai now st, true)

/-- Embedding of the `reprocess` route (routes.py lines 599-640): reset,
then dispatch — but a failed enqueue raises an HTTP 500 with no inline
fallback, leaving the document reset and nothing scheduled. -/
def reprocess_documentR (useQueue enqueueOk hasBg : Bool)
    (ai : Option (List AiTaskData)) (now : Nat) (st : StoreState) :
    StoreState × Bool :=
  let st1 := reprocessReset st
  if useQueue then
    if enqueueOk then (st1, true) else (st1, false)
  else if hasBg then (st1, true)
  else (process_document ai now st1, true)

/-- Embedding of the `reprocess-direct` route (routes.py lines 688-718):
clears `is_processed` and the status but — unlike `reprocess` — not
`processed_at`, then runs the pipeline inline. -/
def reprocess_document_directR (ai : Option (List AiTaskData)) (now : Nat)
    (st : StoreState) : StoreState :=
  process_document ai now { st with status := strOf "uploaded", is_processed := false }

/-- Content update of the `update_document` route, the only pipeline-
relevant effect of that route. -/
def setContent (c : Str) (st : StoreState) : StoreState := { st with content := c }

/-- The spec invariant of claim C2: `processed_at` is set exactly when the
status is `processed`. -/
def processedAtIff (st : StoreState) : Prop :=
  st.processed_at ≠ none ↔ st.status = strOf "processed"

/-- A fresh document with one actionable sentence as content. -/
def c1Doc : StoreState :=
  ⟨1, strOf "You must review the budget now", strOf "uploaded", false, none, [], []⟩

/-- C1 fails on the code: processing `c1Doc` leaves 1 chunk row and 1 task
row, and an identical-input reprocess leaves 2 of each — rows accumulate
because neither `process_document` nor the reprocess routes delete the
previous rows. -/
theorem c1_reprocess_accumulates :
    (process_document none 10 c1Doc).chunks.length = 1
    ∧ (process_document none 10 c1Doc).tasks.length = 1
    ∧ (reprocess_documentR false false false none 20
        (process_document none 10 c1Doc)).1.chunks.length = 2
    ∧ (reprocess_documentR false false false none 20
        (process_document none 10 c1Doc)).1.tasks.length = 2 := by decide

/-- A fresh document with plain content. -/
def c2Doc : StoreState :=
  ⟨2, strOf "Hello world", strOf "uploaded", false, none, [], []⟩

/-- C2 fails on the code: after a successful run, clearing the content and
calling `reprocess-direct` ends with status `failed` while `processed_at`
still holds the old timestamp, because `reprocess_document_direct` does
not clear `processed_at` and the failure path never touches it. -/
theorem c2_reprocess_direct_keeps_processed_at :
    (reprocess_document_directR none 20
        (setContent [] (process_document none 10 c2Doc))).status = strOf "failed"
    ∧ (reprocess_document_directR none 20
        (setContent [] (process_document none 10 c2Doc))).processed_at = some 10
    ∧ ¬ processedAtIff (reprocess_document_directR none 20
        (setContent [] (process_document none 10 c2Doc))) := by
  unfold processedAtIff
  decide

/-- A document already in status `processing` when a worker picks it up. -/
def c9Doc : StoreState :=
  ⟨3, strOf "Hello world", strOf "processing", false, none, [], []⟩

/-- C9 fails on the code: `process_document` never checks the prior
status — on a document already in `processing` it runs the full pipeline
(appending a chunk and finishing in `processed`) instead of skipping. -/
theorem c9_no_processing_guard :
    (process_document none 10 c9Doc).status = strOf "processed"
    ∧ (process_document none 10 c9Doc).chunks.length = c9Doc.chunks.length + 1
    ∧ process_document none 10 c9Doc ≠ c9Doc := by decide

/-- Claim C8 as stated: in both document-creating entry points, a failed
enqueue of the preferred queue dispatch still gets the document processed
(inline fallback), so it never stays in `uploaded` with nothing
scheduled. -/
def ClaimC8 : Prop :=
  ∀ (bg : Bool) (ai : Option (List AiTaskData)) (now : Nat) (st : StoreState),
    ((create_documentR true false bg ai now st).2 = true
      ∧ (create_documentR true false bg ai now st).1.status ≠ strOf "uploaded")
    ∧ ((reprocess_documentR true false bg ai now st).2 = true
      ∧ (reprocess_documentR true false bg ai now st).1.status ≠ strOf "uploaded")

/-- A processed document used to exercise the reprocess route. -/
def c8Doc : StoreState :=
  ⟨4, strOf "Hello world", strOf "processed", true, some 10, [], []⟩

/-- C8 fails as stated: when the queue enqueue raises inside the
`reprocess` route, the route returns HTTP 500 and the document stays in
`uploaded` with nothing scheduled. -/
theorem c8_counterexample : ¬ ClaimC8 := by
  intro h
  exact absurd (h false none 0 c8Doc).2 (by decide)

/-- C8 (amended): `create_document` does fall back to inline execution on
a failed enqueue, so its document never stays in `uploaded`; the
`reprocess` route instead surfaces an HTTP 500 on a failed enqueue and
leaves the document reset to `uploaded` with nothing scheduled. -/
theorem c8_dispatch_fallback (bg : Bool) (ai : Option (List AiTaskData))
    (now : Nat) (st : StoreState) :
    ((create_documentR true false bg ai now st).2 = true
      ∧ (create_documentR true false bg ai now st).1.status ≠ strOf "uploaded")
    ∧ ((reprocess_documentR true false bg ai now st).2 = false
      ∧ (reprocess_documentR true false bg ai now st).1.status = strOf "uploaded") := by
  refine ⟨⟨rfl, ?_⟩, rfl, rfl⟩
  show (process_document ai now st).status ≠ strOf "uploaded"
  unfold process_document
  by_cases h : stripChars st.content = []
  · rw [if_pos h]
    show ¬ strOf "failed" = strOf "uploaded"
    decide
  · rw [if_neg h]
    show ¬ strOf "processed" = strOf "uploaded"
    decide

/-- C8 witness: the amended dispatch behaviour evaluated on a concrete
processed document with a failing queue. -/
theorem c8_witness :
    ((create_documentR true false false none 0 c8Doc).2 = true
      ∧ (create_documentR true false false none 0 c8Doc).1.status ≠ strOf "uploaded")
    ∧ ((reprocess_documentR true false false none 0 c8Doc).2 = false
      ∧ (reprocess_documentR true false false none 0 c8Doc).1.status = strOf "uploaded") :=
  c8_dispatch_fallback false none 0 c8Doc
